import Mathlib

/-!
Verification development for the `omfsi` TACS adapter components
(`src/omfsi/tacs_component.py`).

The Python source is a thin glue layer between the OpenMDAO component
framework and the external TACS structural solver.  We shallowly embed the
adapter's own logic in Lean:

* numpy arrays crossing the adapter boundary are modelled as functions
  `ℕ → ℚ` (exact rational arithmetic in place of IEEE floats);
* the external TACS engine is modelled as a structure of opaque pure
  kernels (`applyBCs`, matrix product, linear solve, sensitivity
  products), since the repository treats it as an opaque numerical engine;
* the mutable TACS assembler state (design variables, nodes, state
  variables, assembled/factorized operator) is passed explicitly as a
  `SolverState` record;
* MPI collectives (`comm.allgather`, `np.sum(list[:irank])`) are modelled
  on the gathered list of per-rank sizes.
-/

/-! ## Distributed partitioner (TacsSolver.setup / PrescribedLoad.setup)

`setup` all-gathers the per-rank local sizes into `s_list` and computes
`s1 = np.sum(s_list[:irank])`, `s2 = np.sum(s_list[:irank+1])`, the
half-open range `[s1, s2)` owned by rank `irank`. -/

/-- Start offset of rank `r`: `np.sum(s_list[:r])`. -/
def partStart (s : List Nat) (r : Nat) : Nat := (s.take r).sum

/-- End offset of rank `r`: `np.sum(s_list[:r+1])`. -/
def partEnd (s : List Nat) (r : Nat) : Nat := (s.take (r + 1)).sum

/-! ## Model of the external TACS engine and its mutable assembler state -/

/-- A distributed numpy array crossing the adapter boundary, modelled as a
function from (global) index to exact rational value. -/
abbrev Vec : Type := Nat → ℚ

/-- The opaque TACS engine: pure kernels for boundary conditions, the
assembled stiffness operator, the preconditioned GMRES solve, the adjoint
sensitivity products, and the scalar function evaluations.  Per the source's
own comment ("it is not dependent on the structural state",
tacs_component.py:358-359) the StructuralMass function and its design/node
sensitivities take no state argument. -/
structure Tacs where
  applyBCs : Vec → Vec
  kmul : Vec → Vec → Vec → Vec
  gmres : Vec → Vec → Vec → Vec
  adjResXpt : Vec → Vec → Vec → Vec → Vec
  adjResDv : Vec → Vec → Vec → Vec → Vec
  evalMass : Vec → Vec → ℚ
  evalMassDv : Vec → Vec → Vec
  evalMassXpt : Vec → Vec → Vec
  evalFunc : Nat → Vec → Vec → Vec → ℚ
  evalFuncDv : Nat → Vec → Vec → Vec → Vec
  evalFuncXpt : Nat → Vec → Vec → Vec → Vec
  evalFuncSv : Nat → Vec → Vec → Vec → Vec

/-- The mutable TACS assembler state threaded through the adapter calls:
current design variables, node coordinates and state variables, plus the
design/node snapshot at which the operator was last assembled (and
factorized — `assembleJacobian` and `pc.factor()` always run together in
`_update_internal`). -/
structure SolverState where
  dv : Vec
  nodes : Vec
  vars : Vec
  matDv : Vec
  matNodes : Vec

/-- `TacsSolver._update_internal` (tacs_component.py:118-151): push design
variables and node coordinates into the solver, assemble and factorize the
Jacobian, and, when `outputs` is given, set the state variables to the
boundary-condition-projected state vector. -/
def updateInternal (M : Tacs) (s : SolverState) (dv nodes : Vec) (us : Option Vec) :
    SolverState :=
  let s1 : SolverState :=
    { s with dv := dv, nodes := nodes, matDv := dv, matNodes := nodes }
  match us with
  | none => s1
  | some u => { s1 with vars := M.applyBCs u }

/-- `TacsSolver.apply_nonlinear` (tacs_component.py:153-172): update the
internal state, evaluate `K·u` via `assembleRes`, subtract the external
loads, apply boundary conditions to the residual, and return it. -/
def applyNonlinear (M : Tacs) (s : SolverState) (dv nodes fs us : Vec) :
    SolverState × Vec :=
  let s2 := updateInternal M s dv nodes (some us)
  let res0 := M.kmul s2.dv s2.nodes s2.vars
  let res1 := res0 - fs
  (s2, M.applyBCs res1)

/-- `TacsSolver.solve_nonlinear` (tacs_component.py:174-198): update the
internal state, apply boundary conditions to the load, GMRES-solve for the
state, and store it as the solver's variables.  (The optional `.f5`
visualization snapshot is an external side effect and is not modelled.) -/
def solveNonlinear (M : Tacs) (s : SolverState) (dv nodes fs : Vec) :
    SolverState × Vec :=
  let s2 := updateInternal M s dv nodes none
  let force := M.applyBCs fs
  let ans := M.gmres s2.dv s2.nodes force
  ({ s2 with vars := ans }, ans)

/-- The identity instantiation of the TACS engine: no constrained degrees of
freedom, identity stiffness operator, exact solver. -/
def idTacs : Tacs where
  applyBCs := id
  kmul := fun _ _ u => u
  gmres := fun _ _ b => b
  adjResXpt := fun _ _ _ ψ => ψ
  adjResDv := fun _ _ _ ψ => ψ
  evalMass := fun _ _ => 0
  evalMassDv := fun _ _ => 0
  evalMassXpt := fun _ _ => 0
  evalFunc := fun _ _ _ vars => vars 0
  evalFuncDv := fun _ _ _ _ => 0
  evalFuncXpt := fun _ _ _ _ => 0
  evalFuncSv := fun _ _ _ _ => 0

/-- The all-zero assembler state. -/
def zeroState : SolverState :=
  { dv := 0, nodes := 0, vars := 0, matDv := 0, matNodes := 0 }

/-! ## Derived DOF count and the (absent) configuration-error path

`PrescribedLoad.setup` (tacs_component.py:491-515) computes
`self.ndof = int(state_size / (node_size / 3))`; `TacsSolver.setup`
(tacs_component.py:93-95) computes the same expression.  The source
performs no divisibility or integrality validation and raises no
configuration error of its own; the only failure its arithmetic can
produce is Python's `ZeroDivisionError`, raised by
`state_size / (node_size / 3)` when the inner float quotient is zero —
for sizes, exactly at `node_size = 0`.  The binary64 float divisions are
abstracted as a division function `fdiv` (their rounding is not
modelled): theorems assume of `fdiv` only that dividing by 3 returns
zero exactly on zero input, which binary64 division of a nonnegative
integer by 3 satisfies, and witnesses instantiate `fdiv` with exact
rational division, an admissible instance for the error behaviour. -/

/-- Python's `int()` applied to a rational: truncation toward zero. -/
def pyInt (x : ℚ) : ℤ := if 0 ≤ x then ⌊x⌋ else -⌊-x⌋

/-- `PrescribedLoad.setup`'s size arithmetic, with the float divisions
abstracted as `fdiv`: compute `node_size / 3`; if that quotient is zero,
`state_size / (node_size / 3)` raises `ZeroDivisionError`; otherwise
`int(...)` truncates the outer quotient.  The source contains no other
check and raises no other exception. -/
def prescribedLoadSetupNdof (fdiv : ℚ → ℚ → ℚ) (node_size state_size : Nat) :
    Except String ℤ :=
  let q := fdiv (node_size : ℚ) 3
  if q = 0 then Except.error "ZeroDivisionError"
  else Except.ok (pyInt (fdiv (state_size : ℚ) q))

/-- Shipped value of `TacsSolver.check_partials` (tacs_component.py:69);
it is set in `initialize` and never reassigned. -/
def checkPartialsDefault : Bool := true

/-- `TacsSolver.solve_linear` on `mode == 'fwd'` (tacs_component.py:200-205):
when `check_partials` is set it prints and returns without computing the
requested derivative (modelled as `ok ()`); otherwise it raises
`ValueError('forward mode requested but not implemented')`. -/
def solveLinearFwdResult (check_partials : Bool) : Except String Unit :=
  if check_partials then Except.ok ()
  else Except.error "forward mode requested but not implemented"

/-- `TacsSolver.apply_linear` on `mode == 'fwd'` (tacs_component.py:230-236):
when `check_partials` is set it passes and returns without computing the
requested derivative; otherwise it raises the same `ValueError`. -/
def applyLinearFwdResult (check_partials : Bool) : Except String Unit :=
  if check_partials then Except.ok ()
  else Except.error "forward mode requested but not implemented"

/-! ## Reverse-mode `TacsSolver.apply_linear` (tacs_component.py:230-296) -/

/-- The seed dictionary `d_inputs` of the coupling component: a field is
`none` when the corresponding key is absent from the dictionary. -/
structure DIn where
  dv : Option Vec
  xs : Option Vec
  fs : Option Vec

/-- The load-seed permutation loop (tacs_component.py:270-273): starting
from a zeroed residual buffer, for each local node `i` (of
`int(x_s0.size/3)` nodes, the parameter `nnodes`) and each `j < 3`, write
entry `3*i+j` of the state seed into entry `ndof*i+j` of the buffer. -/
def fsLoopBuf (ndof nnodes : Nat) (seed : Vec) : Vec :=
  (List.range nnodes).foldl
    (fun buf i =>
      (List.range 3).foldl
        (fun b j => Function.update b (ndof * i + j) (seed (3 * i + j))) buf)
    (fun _ => 0)

/-- The map the claim describes: an identity restricted to the owned degrees
of freedom, permuted from 3-DOF-per-node ordering into the solver's
`ndof`-per-node ordering. -/
def permutedSeed (ndof nnodes : Nat) (seed : Vec) : Vec :=
  fun k =>
    if k / ndof < nnodes ∧ k % ndof < 3 then seed (3 * (k / ndof) + k % ndof) else 0

/-- The solver's state-variable vector at the point the sensitivity kernels
run: `_update_internal` sets it to the boundary-condition-projected state,
and the `'u_s' in d_outputs` branch re-sets it to the raw state vector. -/
def varsAfter (hasOutSeed : Bool) (M : Tacs) (us : Vec) : Vec :=
  if hasOutSeed then us else M.applyBCs us

/-- `TacsSolver.apply_linear` in reverse mode: update the internal state
from inputs/outputs, and if the residual seed on `u_s` is present,
accumulate into each present seed array: `d_outputs['u_s'] += BCs(K·u_s)`,
`d_inputs['f_s'] -= BCs(permuted seed)`, `d_inputs['x_s0'] += ` the adjoint
node-sensitivity product, and — on rank 0 only — `d_inputs['dv_struct'] += `
the adjoint design-sensitivity product. -/
def applyLinearRev (M : Tacs) (s : SolverState) (rank ndof nnodes : Nat)
    (dv nodes fs us : Vec) (din : DIn) (dusOut dusRes : Option Vec) :
    SolverState × DIn × Option Vec :=
  let s1 := updateInternal M s dv nodes (some us)
  match dusRes with
  | none => (s1, din, dusOut)
  | some seed =>
    let s2 := { s1 with vars := varsAfter dusOut.isSome M us }
    let dusOutNew := dusOut.map (fun o => o + M.applyBCs (M.kmul s2.matDv s2.matNodes us))
    let dfsNew := din.fs.map (fun f => f - M.applyBCs (fsLoopBuf ndof nnodes seed))
    let dxsNew := din.xs.map (fun x => x + M.adjResXpt s2.dv s2.nodes s2.vars seed)
    let ddvNew := din.dv.map (fun d =>
      if rank = 0 then d + M.adjResDv s2.dv s2.nodes s2.vars seed else d)
    (s2, { dv := ddvNew, xs := dxsNew, fs := dfsNew }, dusOutNew)

/-! ## `TacsFunctions` (tacs_component.py:309-471) -/

/-- A TACS evaluation function handed to `tacs_func_setup`: either the
aggregate `StructuralMass` or a general function identified by an index. -/
inductive TacsFunc where
  | structuralMass : TacsFunc
  | general : Nat → TacsFunc

/-- The `TacsFunctions.setup` loop (tacs_component.py:358-371): walk the
configured function list, record whether a mass output was added (at most
once) and collect the non-mass functions into `func_no_mass`. -/
def setupFuncSplit (func_list : List TacsFunc) : Bool × List TacsFunc :=
  func_list.foldl
    (fun acc f =>
      match f with
      | TacsFunc.structuralMass => (true, acc.2)
      | TacsFunc.general _ => (acc.1, acc.2 ++ [f]))
    (false, [])

/-- `TacsFunctions._update_internal` (tacs_component.py:380-412): same
assemble/factorize step as the solver's, then set the state variables to the
boundary-condition-projected `u_s` input. -/
def funcsUpdateInternal (M : Tacs) (s : SolverState) (dv nodes us : Vec) :
    SolverState :=
  { s with
    dv := dv
    nodes := nodes
    matDv := dv
    matNodes := nodes
    vars := M.applyBCs us }

/-- One `tacs.evalFunctions([func])` call on the current assembler state. -/
def funcEval (M : Tacs) (f : TacsFunc) (dv nodes vars : Vec) : ℚ :=
  match f with
  | TacsFunc.structuralMass => M.evalMass dv nodes
  | TacsFunc.general i => M.evalFunc i dv nodes vars

/-- The outputs dictionary of `TacsFunctions.compute`: a field is `none`
when the corresponding output was not declared at setup. -/
structure FuncOutputs where
  mass : Option ℚ
  fstruct : Option (List ℚ)

/-- `TacsFunctions.compute` (tacs_component.py:414-423) with the shipped
`check_partials = True`: update the internal state, then evaluate the
general function list into `f_struct` (declared iff the list is nonempty)
and the aggregate mass into `mass` (declared iff a `StructuralMass` was
configured). -/
def funcsCompute (M : Tacs) (func_list : List TacsFunc) (s : SolverState)
    (dv nodes us : Vec) : SolverState × FuncOutputs :=
  let s2 := funcsUpdateInternal M s dv nodes us
  let split := setupFuncSplit func_list
  (s2,
   { mass := if split.1 then some (M.evalMass s2.dv s2.nodes) else none
     fstruct :=
       if 0 < split.2.length
       then some (split.2.map (fun f => funcEval M f s2.dv s2.nodes s2.vars))
       else none })

/-- The seed dictionary `d_inputs` of the function component. -/
structure FuncDIn where
  dv : Option Vec
  xs : Option Vec
  us : Option Vec

/-- The seed dictionary `d_outputs` of the function component. -/
structure FuncDOut where
  mass : Option ℚ
  fstruct : Option (List ℚ)

/-- `np.array(...) * d_outputs[...]`: a sensitivity array scaled by a seed. -/
def scalarMul (c : ℚ) (v : Vec) : Vec := fun k => v k * c

/-- `tacs.evalDVSens(func, ...)` on the current assembler state. -/
def funcDvSens (M : Tacs) (f : TacsFunc) (dv nodes vars : Vec) : Vec :=
  match f with
  | TacsFunc.structuralMass => M.evalMassDv dv nodes
  | TacsFunc.general i => M.evalFuncDv i dv nodes vars

/-- `tacs.evalXptSens(func, ...)` on the current assembler state. -/
def funcXptSens (M : Tacs) (f : TacsFunc) (dv nodes vars : Vec) : Vec :=
  match f with
  | TacsFunc.structuralMass => M.evalMassXpt dv nodes
  | TacsFunc.general i => M.evalFuncXpt i dv nodes vars

/-- `tacs.evalSVSens(func, ...)`; the state sensitivity of the aggregate
mass is the zero vector since the mass does not depend on the state. -/
def funcSvSens (M : Tacs) (f : TacsFunc) (dv nodes vars : Vec) : Vec :=
  match f with
  | TacsFunc.structuralMass => 0
  | TacsFunc.general i => M.evalFuncSv i dv nodes vars

/-- `TacsFunctions.compute_jacvec_product` in reverse mode
(tacs_component.py:431-471) with the shipped `check_partials = True`: if a
`mass` seed is present, accumulate its design/node sensitivities (scaled by
the seed) into the present input seeds — the state seed is never touched by
this branch; if an `f_struct` seed is present, loop over the non-mass
function list and accumulate design/node/state sensitivities per function
index. -/
def funcsJacvecRev (M : Tacs) (func_list : List TacsFunc) (dv nodes us : Vec)
    (din : FuncDIn) (dout : FuncDOut) : FuncDIn :=
  let vars := M.applyBCs us
  let fl := (setupFuncSplit func_list).2
  let d1 : FuncDIn :=
    match dout.mass with
    | none => din
    | some c =>
      { din with
        dv := din.dv.map (fun d => d + scalarMul c (M.evalMassDv dv nodes))
        xs := din.xs.map (fun x => x + scalarMul c (M.evalMassXpt dv nodes)) }
  match dout.fstruct with
  | none => d1
  | some fseed =>
    fl.enum.foldl
      (fun acc p =>
        { dv := acc.dv.map (fun d =>
            d + scalarMul (fseed.getD p.1 0) (funcDvSens M p.2 dv nodes vars))
          xs := acc.xs.map (fun x =>
            x + scalarMul (fseed.getD p.1 0) (funcXptSens M p.2 dv nodes vars))
          us := acc.us.map (fun u =>
            u + scalarMul (fseed.getD p.1 0) (funcSvSens M p.2 dv nodes vars)) })
      d1

/-! ## Additivity and order-independence of reverse-mode seed accumulation -/

/-- Contribution accumulated onto `d_inputs['dv_struct']` by one reverse
`apply_linear` call (zero off rank 0). -/
def revDvDelta (M : Tacs) (rank : Nat) (dv nodes us : Vec) (hasOut : Bool)
    (seed : Vec) : Vec :=
  if rank = 0 then M.adjResDv dv nodes (varsAfter hasOut M us) seed else 0

/-- Contribution accumulated onto `d_inputs['x_s0']` by one reverse
`apply_linear` call. -/
def revXsDelta (M : Tacs) (dv nodes us : Vec) (hasOut : Bool) (seed : Vec) : Vec :=
  M.adjResXpt dv nodes (varsAfter hasOut M us) seed

/-- Contribution accumulated onto `d_inputs['f_s']` by one reverse
`apply_linear` call (a subtraction in the source). -/
def revFsDelta (M : Tacs) (ndof nnodes : Nat) (seed : Vec) : Vec :=
  -(M.applyBCs (fsLoopBuf ndof nnodes seed))

/-- Contribution accumulated onto `d_outputs['u_s']` by one reverse
`apply_linear` call (independent of the residual seed in the source). -/
def revOutDelta (M : Tacs) (dv nodes us : Vec) : Vec :=
  M.applyBCs (M.kmul dv nodes us)

/-- One reverse `apply_linear` call as a step on the
(solver state, `d_inputs`, `d_outputs`) triple, as the composing framework
invokes it once per downstream seed. -/
def revStep (M : Tacs) (rank ndof nnodes : Nat) (dv nodes fs us : Vec)
    (dusRes : Option Vec) (p : SolverState × DIn × Option Vec) :
    SolverState × DIn × Option Vec :=
  applyLinearRev M p.1 rank ndof nnodes dv nodes fs us p.2.1 p.2.2 dusRes

/-- Mass-seed contribution to the `dv_struct` seed in
`compute_jacvec_product`. -/
def jacMassDvDelta (M : Tacs) (dv nodes : Vec) (m : Option ℚ) : Vec :=
  match m with
  | none => 0
  | some c => scalarMul c (M.evalMassDv dv nodes)

/-- Mass-seed contribution to the `x_s0` seed in `compute_jacvec_product`. -/
def jacMassXptDelta (M : Tacs) (dv nodes : Vec) (m : Option ℚ) : Vec :=
  match m with
  | none => 0
  | some c => scalarMul c (M.evalMassXpt dv nodes)

/-- `f_struct`-seed contribution to the `dv_struct` seed: the sum over the
non-mass function list of per-function design sensitivities scaled by the
corresponding seed entry. -/
def jacListDvDelta (M : Tacs) (func_list : List TacsFunc) (dv nodes us : Vec)
    (fsd : Option (List ℚ)) : Vec :=
  match fsd with
  | none => 0
  | some fseed =>
    ((((setupFuncSplit func_list).2).enum).map
      (fun p => scalarMul (fseed.getD p.1 0)
        (funcDvSens M p.2 dv nodes (M.applyBCs us)))).sum

/-- `f_struct`-seed contribution to the `x_s0` seed. -/
def jacListXptDelta (M : Tacs) (func_list : List TacsFunc) (dv nodes us : Vec)
    (fsd : Option (List ℚ)) : Vec :=
  match fsd with
  | none => 0
  | some fseed =>
    ((((setupFuncSplit func_list).2).enum).map
      (fun p => scalarMul (fseed.getD p.1 0)
        (funcXptSens M p.2 dv nodes (M.applyBCs us)))).sum

/-- `f_struct`-seed contribution to the `u_s` seed. -/
def jacListSvDelta (M : Tacs) (func_list : List TacsFunc) (dv nodes us : Vec)
    (fsd : Option (List ℚ)) : Vec :=
  match fsd with
  | none => 0
  | some fseed =>
    ((((setupFuncSplit func_list).2).enum).map
      (fun p => scalarMul (fseed.getD p.1 0)
        (funcSvSens M p.2 dv nodes (M.applyBCs us)))).sum

/-! ## Theorems -/

/-- The sum of a prefix of a list of naturals is at most the total sum. -/
theorem sum_take_le (l : List Nat) (n : Nat) : (l.take n).sum ≤ l.sum := by
  conv_rhs => rw [← List.take_append_drop n l]
  rw [List.sum_append]
  exact Nat.le_add_right _ _

/-- Start offsets are monotone in the rank id. -/
theorem partStart_mono (s : List Nat) {r r' : Nat} (h : r ≤ r') :
    partStart s r ≤ partStart s r' := by
  unfold partStart
  have hts : s.take r = (s.take r').take r := by
    rw [List.take_take, Nat.min_eq_left h]
  rw [hts]
  exact sum_take_le _ _

/-- Every global index below the total size is covered by some rank's range. -/
theorem partition_exists_rank (s : List Nat) (k : Nat) (hk : k < s.sum) :
    ∃ r, r < s.length ∧ partStart s r ≤ k ∧ k < partEnd s r := by
  induction s generalizing k with
  | nil => simp at hk
  | cons a t ih =>
    by_cases h : k < a
    · refine ⟨0, by simp, ?_, ?_⟩
      · simp [partStart]
      · simpa [partEnd] using h
    · push_neg at h
      have hk' : k - a < t.sum := by
        simp only [List.sum_cons] at hk
        omega
      obtain ⟨r, hr, h1, h2⟩ := ih (k - a) hk'
      refine ⟨r + 1, by simpa using Nat.succ_lt_succ hr, ?_, ?_⟩
      · have : partStart (a :: t) (r + 1) = a + partStart t r := by
          simp [partStart, List.take_succ_cons]
        omega
      · have : partEnd (a :: t) (r + 1) = a + partEnd t r := by
          simp [partEnd, List.take_succ_cons]
        omega

/-- C1: the per-rank `(start, end)` ranges computed in component `setup` by
all-gathering local sizes and prefix-summing sizes of ranks `< self` (start)
and `<= self` (end) are contiguous, pairwise disjoint, ordered by rank id,
and together partition `[0, Σ sᵢ)` exactly once. -/
theorem partitioner_partitions_exactly (s : List Nat) :
    partStart s 0 = 0 ∧
    partStart s s.length = s.sum ∧
    (∀ r (h : r < s.length), partEnd s r = partStart s r + s.get ⟨r, h⟩) ∧
    (∀ r, partStart s (r + 1) = partEnd s r) ∧
    (∀ r₁ r₂, r₁ < r₂ → partEnd s r₁ ≤ partStart s r₂) ∧
    (∀ k, k < s.sum → ∃! r, r < s.length ∧ partStart s r ≤ k ∧ k < partEnd s r) := by
  have hdisj : ∀ r₁ r₂, r₁ < r₂ → partEnd s r₁ ≤ partStart s r₂ := by
    intro r₁ r₂ h
    have : partEnd s r₁ = partStart s (r₁ + 1) := rfl
    rw [this]
    exact partStart_mono s h
  refine ⟨rfl, by simp [partStart], ?_, fun _ => rfl, hdisj, ?_⟩
  · intro r h
    simpa [partEnd, partStart] using List.sum_take_succ s r h
  · intro k hk
    obtain ⟨r, hr, h1, h2⟩ := partition_exists_rank s k hk
    refine ⟨r, ⟨hr, h1, h2⟩, ?_⟩
    intro r' ⟨_, h1', h2'⟩
    by_contra hne
    rcases Nat.lt_or_ge r' r with hlt | hge
    · have := hdisj r' r hlt
      omega
    · have hlt : r < r' := by omega
      have := hdisj r r' hlt
      omega

/-- Witness for C1 at the concrete size list `[4, 2, 3]`: rank 1's range
starts where rank 0's ends, and index 5 lies in exactly one range. -/
theorem partitioner_partitions_exactly_witness :
    partEnd [4, 2, 3] 0 ≤ partStart [4, 2, 3] 1 ∧
    (∃! r, r < ([4, 2, 3] : List Nat).length ∧
      partStart [4, 2, 3] r ≤ 5 ∧ 5 < partEnd [4, 2, 3] r) :=
  ⟨(partitioner_partitions_exactly [4, 2, 3]).2.2.2.2.1 0 1 (by decide),
   (partitioner_partitions_exactly [4, 2, 3]).2.2.2.2.2 5 (by decide)⟩

/-- C2: `apply_nonlinear` returns `assembled_operator · state − load` with
boundary conditions applied to the residual after the subtraction; the solve
path applies boundary conditions to the load before solving; and at a
converged solve (exact linear solver, i.e. tolerance zero) whose solution
respects the boundary conditions, the residual is zero.  Hypotheses: the
boundary-condition projection distributes over subtraction and is
idempotent. -/
theorem applyNonlinear_residual_contract (M : Tacs) (s : SolverState)
    (dv nodes fs : Vec)
    (hB : ∀ x y : Vec, M.applyBCs (x - y) = M.applyBCs x - M.applyBCs y)
    (hBB : ∀ x : Vec, M.applyBCs (M.applyBCs x) = M.applyBCs x)
    (hexact : M.kmul dv nodes (M.gmres dv nodes (M.applyBCs fs)) = M.applyBCs fs)
    (hsol : M.applyBCs (M.gmres dv nodes (M.applyBCs fs))
      = M.gmres dv nodes (M.applyBCs fs)) :
    (∀ us : Vec, (applyNonlinear M s dv nodes fs us).2
      = M.applyBCs (M.kmul dv nodes (M.applyBCs us) - fs)) ∧
    (solveNonlinear M s dv nodes fs).2 = M.gmres dv nodes (M.applyBCs fs) ∧
    (applyNonlinear M s dv nodes fs ((solveNonlinear M s dv nodes fs).2)).2 = 0 := by
  refine ⟨fun us => rfl, rfl, ?_⟩
  show M.applyBCs (M.kmul dv nodes
    (M.applyBCs (M.gmres dv nodes (M.applyBCs fs))) - fs) = 0
  rw [hsol, hexact, hB, hBB, sub_self]

/-- Witness for C2 at the identity engine and zero inputs. -/
theorem applyNonlinear_residual_contract_witness :
    (∀ us : Vec, (applyNonlinear idTacs zeroState 0 0 0 us).2
      = idTacs.applyBCs (idTacs.kmul 0 0 (idTacs.applyBCs us) - 0)) ∧
    (solveNonlinear idTacs zeroState 0 0 0).2 = idTacs.gmres 0 0 (idTacs.applyBCs 0) ∧
    (applyNonlinear idTacs zeroState 0 0 0 ((solveNonlinear idTacs zeroState 0 0 0).2)).2 = 0 :=
  applyNonlinear_residual_contract idTacs zeroState 0 0 0
    (fun _ _ => rfl) (fun _ => rfl) rfl rfl

/-- C3 counterexample: at node-vector size 10 (not divisible by 3, the
claim's own example) and state size 60, `PrescribedLoad.setup` does not
fail with a `ConfigurationError` — it succeeds and silently derives a DOF
count.  (Instantiated with exact rational division for the abstracted
float division; whether the call succeeds does not depend on the float
rounding, only the numeric value would.) -/
theorem prescribedLoad_setup_no_error_at_node10 :
    ∃ d : ℤ, prescribedLoadSetupNdof (fun a b => a / b) 10 60 = Except.ok d := by
  refine ⟨pyInt (((60 : Nat) : ℚ) / (((10 : Nat) : ℚ) / 3)), ?_⟩
  simp only [prescribedLoadSetupNdof]
  rw [if_neg (by norm_num)]

/-- C3 amended: `PrescribedLoad.setup` performs no divisibility or
integrality validation and never fails with a `ConfigurationError`: for
every positive node size — divisible by 3 or not, state/node ratio integral
or not — it succeeds, deriving the degrees-of-freedom count once by
truncating the float quotient `state_size / (node_size / 3)`; the only
failure is Python's `ZeroDivisionError`, exactly at node size 0.  The
abstracted float division is assumed to send `node_size / 3` to zero
exactly when the node size is zero. -/
theorem prescribedLoad_setup_no_validation (fdiv : ℚ → ℚ → ℚ)
    (hz : ∀ a : ℚ, fdiv a 3 = 0 ↔ a = 0) (node_size state_size : Nat) :
    (prescribedLoadSetupNdof fdiv node_size state_size
        = Except.error "ZeroDivisionError" ↔ node_size = 0) ∧
    (∀ e : String, prescribedLoadSetupNdof fdiv node_size state_size
        = Except.error e → e = "ZeroDivisionError") ∧
    (0 < node_size → prescribedLoadSetupNdof fdiv node_size state_size
        = Except.ok (pyInt (fdiv (state_size : ℚ) (fdiv (node_size : ℚ) 3)))) := by
  have hq : fdiv (node_size : ℚ) 3 = 0 ↔ node_size = 0 := by
    rw [hz]
    exact Nat.cast_eq_zero
  by_cases h : fdiv (node_size : ℚ) 3 = 0
  · have hres : prescribedLoadSetupNdof fdiv node_size state_size
        = Except.error "ZeroDivisionError" := by
      simp only [prescribedLoadSetupNdof]
      rw [if_pos h]
    refine ⟨⟨fun _ => hq.mp h, fun _ => hres⟩, fun e he => ?_, fun hpos => ?_⟩
    · rw [hres] at he
      exact (Except.error.inj he).symm
    · exact absurd (hq.mp h) (by omega)
  · have hres : prescribedLoadSetupNdof fdiv node_size state_size
        = Except.ok (pyInt (fdiv (state_size : ℚ) (fdiv (node_size : ℚ) 3))) := by
      simp only [prescribedLoadSetupNdof]
      rw [if_neg h]
    refine ⟨⟨fun he => ?_, fun h0 => absurd (hq.mpr h0) h⟩, fun e he => ?_, fun _ => hres⟩
    · rw [hres] at he
      exact Except.noConfusion he
    · rw [hres] at he
      exact Except.noConfusion he

/-- Witness for the amended C3 at node size 10, state size 60, with exact
rational division standing in for the abstracted float division. -/
theorem prescribedLoad_setup_no_validation_witness :
    (prescribedLoadSetupNdof (fun a b => a / b) 10 60
        = Except.error "ZeroDivisionError" ↔ (10 : Nat) = 0) ∧
    (∀ e : String, prescribedLoadSetupNdof (fun a b => a / b) 10 60
        = Except.error e → e = "ZeroDivisionError") ∧
    (0 < (10 : Nat) → prescribedLoadSetupNdof (fun a b => a / b) 10 60
        = Except.ok (pyInt ((((60 : Nat)) : ℚ) / ((((10 : Nat)) : ℚ) / 3)))) :=
  prescribedLoad_setup_no_validation (fun a b => a / b)
    (fun a => by simp [div_eq_zero_iff]) 10 60

/-- C4 counterexample: with the shipped default `check_partials = True`,
both forward-mode entry points return silently (no error is raised and no
derivative is computed). -/
theorem fwd_mode_silent_with_default :
    checkPartialsDefault = true ∧
    solveLinearFwdResult checkPartialsDefault = Except.ok () ∧
    applyLinearFwdResult checkPartialsDefault = Except.ok () :=
  ⟨rfl, rfl, rfl⟩

/-- C4 amended: a forward-mode request on `solve_linear` or `apply_linear`
raises `ValueError('forward mode requested but not implemented')` exactly
when `check_partials` is false; with the shipped default
(`check_partials = True`) both calls return silently without computing the
requested derivative. -/
theorem fwd_mode_raises_iff_not_check_partials (cp : Bool) :
    (solveLinearFwdResult cp
        = Except.error "forward mode requested but not implemented" ↔ cp = false) ∧
    (applyLinearFwdResult cp
        = Except.error "forward mode requested but not implemented" ↔ cp = false) := by
  cases cp <;> simp [solveLinearFwdResult, applyLinearFwdResult]

/-- Pointwise effect of one node's three writes in the permutation loop. -/
theorem updRow_apply (ndof i : Nat) (seed buf : Vec) (k : Nat) :
    (List.range 3).foldl
      (fun b j => Function.update b (ndof * i + j) (seed (3 * i + j))) buf k
      = if k = ndof * i + 2 then seed (3 * i + 2)
        else if k = ndof * i + 1 then seed (3 * i + 1)
        else if k = ndof * i + 0 then seed (3 * i + 0)
        else buf k := by
  have h3 : List.range 3 = [0, 1, 2] := by decide
  rw [h3]
  simp only [List.foldl_cons, List.foldl_nil, Function.update_apply]

/-- Pointwise characterization of the permutation loop: when `3 ≤ ndof`, the
buffer holds entry `3*(k/ndof) + k%ndof` of the seed at every owned index
`k` with `k/ndof < nnodes` and `k%ndof < 3`, and zero elsewhere. -/
theorem fsLoopBuf_apply (ndof nnodes : Nat) (seed : Vec) (h3 : 3 ≤ ndof) (k : Nat) :
    fsLoopBuf ndof nnodes seed k =
      if k / ndof < nnodes ∧ k % ndof < 3 then seed (3 * (k / ndof) + k % ndof) else 0 := by
  have hpos : 0 < ndof := by omega
  induction nnodes with
  | zero => simp [fsLoopBuf]
  | succ n ih =>
    have hstep : fsLoopBuf ndof (n + 1) seed k =
        if k = ndof * n + 2 then seed (3 * n + 2)
        else if k = ndof * n + 1 then seed (3 * n + 1)
        else if k = ndof * n + 0 then seed (3 * n + 0)
        else fsLoopBuf ndof n seed k := by
      unfold fsLoopBuf
      rw [List.range_succ n, List.foldl_append, List.foldl_cons, List.foldl_nil]
      exact updRow_apply ndof n seed _ k
    rw [hstep, ih]
    have hkdm : ndof * (k / ndof) + k % ndof = k := Nat.div_add_mod k ndof
    by_cases hj2 : k = ndof * n + 2
    · have hq : k / ndof = n := by
        rw [hj2, Nat.mul_add_div hpos, Nat.div_eq_of_lt (by omega), Nat.add_zero]
      have hr : k % ndof = 2 := by
        rw [hj2, Nat.mul_add_mod, Nat.mod_eq_of_lt (by omega)]
      rw [if_pos hj2, hq, hr, if_pos ⟨Nat.lt_succ_self n, by omega⟩]
    · by_cases hj1 : k = ndof * n + 1
      · have hq : k / ndof = n := by
          rw [hj1, Nat.mul_add_div hpos, Nat.div_eq_of_lt (by omega), Nat.add_zero]
        have hr : k % ndof = 1 := by
          rw [hj1, Nat.mul_add_mod, Nat.mod_eq_of_lt (by omega)]
        rw [if_neg hj2, if_pos hj1, hq, hr, if_pos ⟨Nat.lt_succ_self n, by omega⟩]
      · by_cases hj0 : k = ndof * n + 0
        · have hq : k / ndof = n := by
            rw [hj0, Nat.mul_add_div hpos, Nat.div_eq_of_lt (by omega), Nat.add_zero]
          have hr : k % ndof = 0 := by
            rw [hj0, Nat.mul_add_mod, Nat.mod_eq_of_lt (by omega)]
          rw [if_neg hj2, if_neg hj1, if_pos hj0, hq, hr,
            if_pos ⟨Nat.lt_succ_self n, by omega⟩]
        · rw [if_neg hj2, if_neg hj1, if_neg hj0]
          by_cases hrlt : k % ndof < 3
          · have hqn : k / ndof ≠ n := by
              intro hq
              rw [hq] at hkdm
              rcases (by omega : k % ndof = 0 ∨ k % ndof = 1 ∨ k % ndof = 2) with
                h0 | h1 | h2
              · rw [h0] at hkdm; exact hj0 hkdm.symm
              · rw [h1] at hkdm; exact hj1 hkdm.symm
              · rw [h2] at hkdm; exact hj2 hkdm.symm
            have hiff : (k / ndof < n ∧ k % ndof < 3) ↔
                (k / ndof < n + 1 ∧ k % ndof < 3) := by
              constructor
              · rintro ⟨a, b⟩
                exact ⟨Nat.lt_succ_of_lt a, b⟩
              · rintro ⟨a, b⟩
                exact ⟨by omega, b⟩
            simp only [hiff]
          · have hc1 : ¬(k / ndof < n ∧ k % ndof < 3) := fun hcc => hrlt hcc.2
            have hc2 : ¬(k / ndof < n + 1 ∧ k % ndof < 3) := fun hcc => hrlt hcc.2
            rw [if_neg hc1, if_neg hc2]

/-- The permutation loop realizes exactly the claimed permuted-identity map
when the solver has at least three degrees of freedom per node. -/
theorem fsLoopBuf_eq_permutedSeed (ndof nnodes : Nat) (seed : Vec) (h3 : 3 ≤ ndof) :
    fsLoopBuf ndof nnodes seed = permutedSeed ndof nnodes seed :=
  funext fun k => fsLoopBuf_apply ndof nnodes seed h3 k

/-- C6: in reverse mode, the seed accumulated onto the load input `f_s` is
the negation of the state seed mapped through the identity restricted to the
owned degrees of freedom, permuted from 3-DOF-per-node ordering into the
solver's `ndof`-per-node ordering (buffer entry `ndof*i+j` receives seed
entry `3*i+j`), with boundary conditions applied to the buffer before the
subtraction. -/
theorem applyLinearRev_load_seed (M : Tacs) (s : SolverState)
    (rank ndof nnodes : Nat) (dv nodes fs us : Vec) (din : DIn)
    (dusOut : Option Vec) (seed f : Vec)
    (hfs : din.fs = some f) (h3 : 3 ≤ ndof) :
    ((applyLinearRev M s rank ndof nnodes dv nodes fs us din dusOut (some seed)).2.1).fs
      = some (f - M.applyBCs (permutedSeed ndof nnodes seed)) ∧
    (∀ i j, i < nnodes → j < 3 →
      permutedSeed ndof nnodes seed (ndof * i + j) = seed (3 * i + j)) := by
  constructor
  · show din.fs.map (fun f0 => f0 - M.applyBCs (fsLoopBuf ndof nnodes seed))
      = some (f - M.applyBCs (permutedSeed ndof nnodes seed))
    rw [hfs, fsLoopBuf_eq_permutedSeed ndof nnodes seed h3]
    rfl
  · intro i j hi hj
    unfold permutedSeed
    have hq : (ndof * i + j) / ndof = i := by
      rw [Nat.mul_add_div (by omega), Nat.div_eq_of_lt (by omega), Nat.add_zero]
    have hr : (ndof * i + j) % ndof = j := by
      rw [Nat.mul_add_mod, Nat.mod_eq_of_lt (by omega)]
    rw [hq, hr, if_pos ⟨hi, hj⟩]

/-- Witness for C6 at `ndof = 3`, two nodes, zero seeds, identity engine. -/
theorem applyLinearRev_load_seed_witness :
    ((applyLinearRev idTacs zeroState 0 3 2 0 0 0 0 ⟨none, none, some 0⟩ none
        (some 0)).2.1).fs
      = some ((0 : Vec) - idTacs.applyBCs (permutedSeed 3 2 0)) ∧
    (∀ i j, i < 2 → j < 3 →
      permutedSeed 3 2 (0 : Vec) (3 * i + j) = (0 : Vec) (3 * i + j)) :=
  applyLinearRev_load_seed idTacs zeroState 0 3 2 0 0 0 0 ⟨none, none, some 0⟩
    none 0 0 rfl (by decide)

/-- C7: the adjoint design-sensitivity product is added into the
`dv_struct` seed unscaled, and only on rank 0; summing the per-rank
contributions over all `R` ranks accumulates the product exactly once. -/
theorem applyLinearRev_dv_seed_once (M : Tacs) (s : SolverState)
    (ndof nnodes : Nat) (dv nodes fs us : Vec) (din : DIn)
    (dusOut : Option Vec) (seed d : Vec)
    (hdv : din.dv = some d) (R : Nat) (hR : 0 < R) :
    (∀ rank,
      ((applyLinearRev M s rank ndof nnodes dv nodes fs us din dusOut (some seed)).2.1).dv
        = some (d + (if rank = 0
            then M.adjResDv dv nodes (varsAfter dusOut.isSome M us) seed else 0))) ∧
    (∑ rank ∈ Finset.range R,
        ((((applyLinearRev M s rank ndof nnodes dv nodes fs us din dusOut
            (some seed)).2.1).dv).getD 0 - d))
      = M.adjResDv dv nodes (varsAfter dusOut.isSome M us) seed := by
  have h1 : ∀ rank,
      ((applyLinearRev M s rank ndof nnodes dv nodes fs us din dusOut (some seed)).2.1).dv
        = some (d + (if rank = 0
            then M.adjResDv dv nodes (varsAfter dusOut.isSome M us) seed else 0)) := by
    intro rank
    show din.dv.map (fun d0 =>
        if rank = 0 then d0 + M.adjResDv dv nodes (varsAfter dusOut.isSome M us) seed
        else d0)
      = some (d + (if rank = 0
          then M.adjResDv dv nodes (varsAfter dusOut.isSome M us) seed else 0))
    rw [hdv]
    by_cases hrk : rank = 0
    · simp [hrk]
    · simp [hrk]
  refine ⟨h1, ?_⟩
  have h2 : ∀ rank,
      ((((applyLinearRev M s rank ndof nnodes dv nodes fs us din dusOut
          (some seed)).2.1).dv).getD 0 - d)
        = if rank = 0 then M.adjResDv dv nodes (varsAfter dusOut.isSome M us) seed
          else 0 := by
    intro rank
    rw [h1 rank]
    simp
  rw [Finset.sum_congr rfl (fun rank _ => h2 rank), Finset.sum_ite_eq',
    if_pos (Finset.mem_range.mpr hR)]

/-- Witness for C7 on a single rank with the identity engine. -/
theorem applyLinearRev_dv_seed_once_witness :
    (∀ rank,
      ((applyLinearRev idTacs zeroState rank 6 1 0 0 0 0 ⟨some 0, none, none⟩ none
          (some 0)).2.1).dv
        = some ((0 : Vec) + (if rank = 0
            then idTacs.adjResDv 0 0 (varsAfter (none : Option Vec).isSome idTacs 0) 0
            else 0))) ∧
    (∑ rank ∈ Finset.range 1,
        ((((applyLinearRev idTacs zeroState rank 6 1 0 0 0 0 ⟨some 0, none, none⟩ none
            (some 0)).2.1).dv).getD 0 - 0))
      = idTacs.adjResDv 0 0 (varsAfter (none : Option Vec).isSome idTacs 0) 0 :=
  applyLinearRev_dv_seed_once idTacs zeroState 6 1 0 0 0 0 ⟨some 0, none, none⟩
    none 0 0 rfl 1 (by decide)

/-- C10: when the residual-seed dictionary has no entry for `u_s`, reverse
mode leaves every input seed and every output seed unchanged (only the
solver-internal assembler state is refreshed by `_update_internal`). -/
theorem applyLinearRev_absent_seed_frame (M : Tacs) (s : SolverState)
    (rank ndof nnodes : Nat) (dv nodes fs us : Vec) (din : DIn)
    (dusOut : Option Vec) :
    (applyLinearRev M s rank ndof nnodes dv nodes fs us din dusOut none).2
      = (din, dusOut) := rfl

/-- C5: the mass output is independent of the state vector `u_s` — two
inputs differing only in `u_s` give identical mass outputs — while the
general `f_struct` output can change with the state; and when only a mass
seed is present, the reverse path accumulates into design and node seeds
only, leaving the state seed `d_inputs['u_s']` unchanged. -/
theorem mass_independent_of_state (M : Tacs) (func_list : List TacsFunc)
    (s : SolverState) (dv nodes us usAlt : Vec) (din : FuncDIn) (dout : FuncDOut)
    (hnofs : dout.fstruct = none) :
    (funcsCompute M func_list s dv nodes us).2.mass
      = (funcsCompute M func_list s dv nodes usAlt).2.mass ∧
    (funcsJacvecRev M func_list dv nodes us din dout).us = din.us ∧
    (∃ (probe : Tacs) (fl : List TacsFunc) (v vAlt : Vec),
      (funcsCompute probe fl s dv nodes v).2.fstruct
        ≠ (funcsCompute probe fl s dv nodes vAlt).2.fstruct) := by
  refine ⟨rfl, ?_, ?_⟩
  · unfold funcsJacvecRev
    rw [hnofs]
    cases hm : dout.mass <;> rfl
  · refine ⟨idTacs, [TacsFunc.general 0], 0, 1, ?_⟩
    show some [(0 : ℚ)] ≠ some [(1 : ℚ)]
    simp

/-- Witness for C5 with a mass seed present and no `f_struct` seed. -/
theorem mass_independent_of_state_witness :
    (funcsCompute idTacs [TacsFunc.structuralMass] zeroState 0 0 0).2.mass
      = (funcsCompute idTacs [TacsFunc.structuralMass] zeroState 0 0 1).2.mass ∧
    (funcsJacvecRev idTacs [TacsFunc.structuralMass] 0 0 0
        ⟨some 0, some 0, some 0⟩ ⟨some 1, none⟩).us = some 0 ∧
    (∃ (probe : Tacs) (fl : List TacsFunc) (v vAlt : Vec),
      (funcsCompute probe fl zeroState 0 0 v).2.fstruct
        ≠ (funcsCompute probe fl zeroState 0 0 vAlt).2.fstruct) :=
  mass_independent_of_state idTacs [TacsFunc.structuralMass] zeroState 0 0 0 1
    ⟨some 0, some 0, some 0⟩ ⟨some 1, none⟩ rfl

/-- Adding two seed contributions in sequence commutes. -/
theorem optMap_add_swap (o : Option Vec) (a b : Vec) :
    (o.map (fun x => x + a)).map (fun x => x + b)
      = (o.map (fun x => x + b)).map (fun x => x + a) := by
  cases o with
  | none => rfl
  | some v =>
    simp only [Option.map_some']
    rw [add_right_comm]

/-- Adding the zero contribution is the identity. -/
theorem optMap_add_zero (o : Option Vec) : o.map (fun x => x + (0 : Vec)) = o := by
  cases o with
  | none => rfl
  | some v =>
    simp only [Option.map_some']
    rw [add_zero]

/-- Two successive additive contributions fuse into one. -/
theorem optMap_add_add (o : Option Vec) (a b : Vec) :
    (o.map (fun x => x + a)).map (fun x => x + b) = o.map (fun x => x + (a + b)) := by
  cases o with
  | none => rfl
  | some v =>
    simp only [Option.map_some']
    rw [add_assoc]

/-- Closed form of one reverse `apply_linear` call on the seed dictionaries:
every present seed array receives its contribution additively; absent keys
stay absent; the contributions do not depend on the pre-existing seed
values. -/
theorem applyLinearRev_closed (M : Tacs) (s : SolverState)
    (rank ndof nnodes : Nat) (dv nodes fs us : Vec) (din : DIn)
    (dusOut : Option Vec) (seed : Vec) :
    (applyLinearRev M s rank ndof nnodes dv nodes fs us din dusOut (some seed)).2
      = (⟨din.dv.map (fun d => d + revDvDelta M rank dv nodes us dusOut.isSome seed),
          din.xs.map (fun x => x + revXsDelta M dv nodes us dusOut.isSome seed),
          din.fs.map (fun f0 => f0 + revFsDelta M ndof nnodes seed)⟩,
         dusOut.map (fun o => o + revOutDelta M dv nodes us)) := by
  have hdv : (fun d : Vec =>
      if rank = 0 then d + M.adjResDv dv nodes (varsAfter dusOut.isSome M us) seed
      else d)
      = fun d => d + revDvDelta M rank dv nodes us dusOut.isSome seed := by
    funext d
    unfold revDvDelta
    by_cases h : rank = 0
    · rw [if_pos h, if_pos h]
    · rw [if_neg h, if_neg h, add_zero]
  have hfs : (fun f0 : Vec => f0 - M.applyBCs (fsLoopBuf ndof nnodes seed))
      = fun f0 => f0 + revFsDelta M ndof nnodes seed := by
    funext f0
    unfold revFsDelta
    rw [sub_eq_add_neg]
  show (DIn.mk
      (din.dv.map (fun d =>
        if rank = 0 then d + M.adjResDv dv nodes (varsAfter dusOut.isSome M us) seed
        else d))
      (din.xs.map (fun x =>
        x + M.adjResXpt dv nodes (varsAfter dusOut.isSome M us) seed))
      (din.fs.map (fun f0 =>
        f0 - M.applyBCs (fsLoopBuf ndof nnodes seed))),
    dusOut.map (fun o => o + M.applyBCs (M.kmul dv nodes us)))
    = _
  rw [hdv, hfs]
  rfl

/-- Interleaving two reverse `apply_linear` calls with different residual
seeds in either order yields the same seed dictionaries. -/
theorem revStep_comm (M : Tacs) (rank ndof nnodes : Nat) (dv nodes fs us : Vec)
    (sd1 sd2 : Option Vec) (p : SolverState × DIn × Option Vec) :
    (revStep M rank ndof nnodes dv nodes fs us sd1
        (revStep M rank ndof nnodes dv nodes fs us sd2 p)).2
      = (revStep M rank ndof nnodes dv nodes fs us sd2
          (revStep M rank ndof nnodes dv nodes fs us sd1 p)).2 := by
  cases sd1 with
  | none =>
    cases sd2 with
    | none => rfl
    | some s2d => rfl
  | some s1d =>
    cases sd2 with
    | none => rfl
    | some s2d =>
      simp only [revStep, applyLinearRev_closed, Option.isSome_map']
      refine congrArg₂ Prod.mk ?_ rfl
      congr 1
      · exact optMap_add_swap _ _ _
      · exact optMap_add_swap _ _ _
      · exact optMap_add_swap _ _ _

/-- Closed form of the per-function accumulation loop in
`compute_jacvec_product`: folding additive contributions equals adding the
summed contribution once. -/
theorem accumFold_closed (gdv gxs gus : Nat × TacsFunc → Vec)
    (l : List (Nat × TacsFunc)) (d : FuncDIn) :
    l.foldl (fun acc p => FuncDIn.mk
        (acc.dv.map (fun x0 => x0 + gdv p))
        (acc.xs.map (fun x0 => x0 + gxs p))
        (acc.us.map (fun x0 => x0 + gus p))) d
      = FuncDIn.mk
          (d.dv.map (fun x0 => x0 + (l.map gdv).sum))
          (d.xs.map (fun x0 => x0 + (l.map gxs).sum))
          (d.us.map (fun x0 => x0 + (l.map gus).sum)) := by
  induction l generalizing d with
  | nil =>
    simp only [List.foldl_nil, List.map_nil, List.sum_nil, optMap_add_zero]
  | cons p t ih =>
    rw [List.foldl_cons, ih]
    simp only [List.map_cons, List.sum_cons, optMap_add_add]

/-- Closed form of `compute_jacvec_product` in reverse mode: each present
input seed receives the mass contribution plus the summed per-function
contribution additively; the state seed receives no mass contribution. -/
theorem funcsJacvecRev_closed (M : Tacs) (func_list : List TacsFunc)
    (dv nodes us : Vec) (din : FuncDIn) (dout : FuncDOut) :
    funcsJacvecRev M func_list dv nodes us din dout
      = FuncDIn.mk
          (din.dv.map (fun d => d + (jacMassDvDelta M dv nodes dout.mass
            + jacListDvDelta M func_list dv nodes us dout.fstruct)))
          (din.xs.map (fun x => x + (jacMassXptDelta M dv nodes dout.mass
            + jacListXptDelta M func_list dv nodes us dout.fstruct)))
          (din.us.map (fun u => u + jacListSvDelta M func_list dv nodes us dout.fstruct)) := by
  obtain ⟨m, fsd⟩ := dout
  cases m with
  | none =>
    cases fsd with
    | none =>
      show din = _
      simp only [jacMassDvDelta, jacMassXptDelta, jacListDvDelta, jacListXptDelta,
        jacListSvDelta, zero_add, optMap_add_zero]
    | some fseed =>
      have h := accumFold_closed
        (fun p => scalarMul (fseed.getD p.1 0) (funcDvSens M p.2 dv nodes (M.applyBCs us)))
        (fun p => scalarMul (fseed.getD p.1 0) (funcXptSens M p.2 dv nodes (M.applyBCs us)))
        (fun p => scalarMul (fseed.getD p.1 0) (funcSvSens M p.2 dv nodes (M.applyBCs us)))
        ((setupFuncSplit func_list).2).enum din
      refine Eq.trans ?_ (Eq.trans h ?_)
      · rfl
      · simp only [jacMassDvDelta, jacMassXptDelta, jacListDvDelta, jacListXptDelta,
          jacListSvDelta, zero_add]
  | some c =>
    cases fsd with
    | none =>
      show FuncDIn.mk
          (din.dv.map (fun d => d + scalarMul c (M.evalMassDv dv nodes)))
          (din.xs.map (fun x => x + scalarMul c (M.evalMassXpt dv nodes)))
          din.us = _
      simp only [jacMassDvDelta, jacMassXptDelta, jacListDvDelta, jacListXptDelta,
        jacListSvDelta, add_zero, optMap_add_zero, Option.map_id_fun', id_eq]
    | some fseed =>
      have h := accumFold_closed
        (fun p => scalarMul (fseed.getD p.1 0) (funcDvSens M p.2 dv nodes (M.applyBCs us)))
        (fun p => scalarMul (fseed.getD p.1 0) (funcXptSens M p.2 dv nodes (M.applyBCs us)))
        (fun p => scalarMul (fseed.getD p.1 0) (funcSvSens M p.2 dv nodes (M.applyBCs us)))
        ((setupFuncSplit func_list).2).enum
        (FuncDIn.mk
          (din.dv.map (fun d => d + scalarMul c (M.evalMassDv dv nodes)))
          (din.xs.map (fun x => x + scalarMul c (M.evalMassXpt dv nodes)))
          din.us)
      refine Eq.trans ?_ (Eq.trans h ?_)
      · rfl
      · simp only [jacMassDvDelta, jacMassXptDelta, jacListDvDelta, jacListXptDelta,
          jacListSvDelta, optMap_add_add]

/-- Interleaving two reverse `compute_jacvec_product` calls with different
output-seed dictionaries in either order yields the same input seeds. -/
theorem funcsJacvecRev_comm (M : Tacs) (func_list : List TacsFunc)
    (dv nodes us : Vec) (din : FuncDIn) (do1 do2 : FuncDOut) :
    funcsJacvecRev M func_list dv nodes us
        (funcsJacvecRev M func_list dv nodes us din do1) do2
      = funcsJacvecRev M func_list dv nodes us
          (funcsJacvecRev M func_list dv nodes us din do2) do1 := by
  simp only [funcsJacvecRev_closed]
  congr 1
  · exact optMap_add_swap _ _ _
  · exact optMap_add_swap _ _ _
  · exact optMap_add_swap _ _ _

/-- C8: every reverse-mode sensitivity entry point accumulates into the
input-seed arrays additively — each present seed receives its contribution
added on top of any pre-existing partial seed (the contribution does not
read or overwrite the existing value, and absent keys stay absent) — and
interleaving the contributions of two sibling output seeds in either order
yields the same accumulated seeds, exactly (hence within any floating-point
tolerance). -/
theorem seed_accumulation_additive_and_commutes (M : Tacs)
    (rank ndof nnodes : Nat) (dv nodes fs us : Vec) (func_list : List TacsFunc) :
    (∀ (seed : Vec) (s : SolverState) (din : DIn) (dusOut : Option Vec),
      (applyLinearRev M s rank ndof nnodes dv nodes fs us din dusOut (some seed)).2
        = (⟨din.dv.map (fun d => d + revDvDelta M rank dv nodes us dusOut.isSome seed),
            din.xs.map (fun x => x + revXsDelta M dv nodes us dusOut.isSome seed),
            din.fs.map (fun f0 => f0 + revFsDelta M ndof nnodes seed)⟩,
           dusOut.map (fun o => o + revOutDelta M dv nodes us))) ∧
    (∀ (sd1 sd2 : Option Vec) (p : SolverState × DIn × Option Vec),
      (revStep M rank ndof nnodes dv nodes fs us sd1
          (revStep M rank ndof nnodes dv nodes fs us sd2 p)).2
        = (revStep M rank ndof nnodes dv nodes fs us sd2
            (revStep M rank ndof nnodes dv nodes fs us sd1 p)).2) ∧
    (∀ (din : FuncDIn) (dout : FuncDOut),
      funcsJacvecRev M func_list dv nodes us din dout
        = FuncDIn.mk
            (din.dv.map (fun d => d + (jacMassDvDelta M dv nodes dout.mass
              + jacListDvDelta M func_list dv nodes us dout.fstruct)))
            (din.xs.map (fun x => x + (jacMassXptDelta M dv nodes dout.mass
              + jacListXptDelta M func_list dv nodes us dout.fstruct)))
            (din.us.map (fun u =>
              u + jacListSvDelta M func_list dv nodes us dout.fstruct))) ∧
    (∀ (din : FuncDIn) (do1 do2 : FuncDOut),
      funcsJacvecRev M func_list dv nodes us
          (funcsJacvecRev M func_list dv nodes us din do1) do2
        = funcsJacvecRev M func_list dv nodes us
            (funcsJacvecRev M func_list dv nodes us din do2) do1) :=
  ⟨fun seed s din dusOut => applyLinearRev_closed M s rank ndof nnodes dv nodes fs us din dusOut seed,
   fun sd1 sd2 p => revStep_comm M rank ndof nnodes dv nodes fs us sd1 sd2 p,
   fun din dout => funcsJacvecRev_closed M func_list dv nodes us din dout,
   fun din do1 do2 => funcsJacvecRev_comm M func_list dv nodes us din do1 do2⟩

/-- C9: re-running the internal assemble/update step with identical design,
node, and state inputs is idempotent, and the residual and scalar function
outputs are identical (exactly, in this rational-arithmetic model) across
repeated calls. -/
theorem update_internal_idempotent (M : Tacs) (s : SolverState)
    (dv nodes fs us : Vec) (func_list : List TacsFunc) :
    updateInternal M (updateInternal M s dv nodes (some us)) dv nodes (some us)
      = updateInternal M s dv nodes (some us) ∧
    updateInternal M (updateInternal M s dv nodes none) dv nodes none
      = updateInternal M s dv nodes none ∧
    (applyNonlinear M (applyNonlinear M s dv nodes fs us).1 dv nodes fs us).2
      = (applyNonlinear M s dv nodes fs us).2 ∧
    funcsUpdateInternal M (funcsUpdateInternal M s dv nodes us) dv nodes us
      = funcsUpdateInternal M s dv nodes us ∧
    (funcsCompute M func_list (funcsCompute M func_list s dv nodes us).1
        dv nodes us).2
      = (funcsCompute M func_list s dv nodes us).2 :=
  ⟨rfl, rfl, rfl, rfl, rfl⟩
